import Mathlib

/-!
Shallow embedding of the kwanghifi sales tracker core
(src/App.tsx derived state and handlers, src/types.ts, the storage service).

Monetary amounts (`costPrice`, `shippingCost`, `sellingPrice`) are embedded
as integers; strings are Lean strings.  Platform primitives used by the
source are modelled explicitly: `String.prototype.startsWith` as a prefix
test on character lists, `JSON.stringify`/`JSON.parse` as an encoding into a
JSON value tree, `localStorage` as a key-indexed partial map, JS `Set`
insertion as first-occurrence deduplication, and a JS object used as a
counter map as an association list with unique keys kept in insertion order.
-/

namespace KwangHifi

/-- JSON value tree, the image of `JSON.stringify` for the data this program
stores (strings, numbers, arrays, objects; `null` for completeness). -/
inductive Json where
  | str : String → Json
  | num : Int → Json
  | arr : List Json → Json
  | obj : List (String × Json) → Json
  | null : Json

/-- `SaleItem` from src/types.ts: one sale record.  `type` is open-ended
(enum value or arbitrary text), so it is a plain string here; `note` is the
optional field `note?`. -/
structure SaleItem where
  id : String
  brand : String
  type : String
  model : String
  costPrice : Int
  shippingCost : Int
  sellingPrice : Int
  date : String
  note : Option String := none
deriving DecidableEq

/-- `SummaryStats` from src/types.ts. -/
structure SummaryStats where
  totalCost : Int
  totalRevenue : Int
  totalProfit : Int
  count : Nat
deriving DecidableEq

/-- Model of JS `s.startsWith(pre)`: `pre`'s characters are a prefix of
`s`'s characters. -/
def jsStartsWith (s pre : String) : Bool :=
  pre.data.isPrefixOf s.data

/-- `filteredSales` (src/App.tsx lines 59-62): if the selected month is the
sentinel `"all"` return the list unchanged, otherwise keep the records whose
date starts with the selected month. -/
def filteredSales (sales : List SaleItem) (selectedMonth : String) : List SaleItem :=
  if selectedMonth = "all" then sales
  else sales.filter (fun s => jsStartsWith s.date selectedMonth)

/-- One step of the `reduce` in `stats` (src/App.tsx lines 65-78). -/
def statsStep (acc : SummaryStats) (curr : SaleItem) : SummaryStats :=
  let cost := curr.costPrice + curr.shippingCost
  let revenue := curr.sellingPrice
  let profit := revenue - cost
  { totalCost := acc.totalCost + cost
    totalRevenue := acc.totalRevenue + revenue
    totalProfit := acc.totalProfit + profit
    count := acc.count + 1 }

/-- `stats` (src/App.tsx lines 65-78): fold of `statsStep` over the filtered
sales starting from the all-zero accumulator. -/
def stats (sales : List SaleItem) : SummaryStats :=
  sales.foldl statsStep
    { totalCost := 0, totalRevenue := 0, totalProfit := 0, count := 0 }

/-- One step of the `forEach` in `categoryData` (src/App.tsx lines 83-89):
`if (data[sale.type]) data[sale.type]++ else data[sale.type] = 1`, on a JS
object modelled as an association list in key-insertion order.  A present
key is incremented in place; an absent (or zero, which is falsy) entry is
set to 1; a fresh key is appended at the end, as JS object insertion does. -/
def bump : List (String × Nat) → String → List (String × Nat)
  | [], k => [(k, 1)]
  | (k₀, v) :: rest, k =>
      if k₀ = k then (k₀, v + 1) :: rest else (k₀, v) :: bump rest k

/-- `categoryData` (src/App.tsx lines 81-91): per-type record counts.  The
final `Object.keys(data).map` just reads the object back out as (name,
value) pairs in insertion order, which is the association list itself. -/
def categoryData (sales : List SaleItem) : List (String × Nat) :=
  sales.foldl (fun data sale => bump data sale.type) []

/-- Number of records of a given type, for specifying `categoryData`. -/
def countType (sales : List SaleItem) (t : String) : Nat :=
  (sales.filter (fun s => s.type == t)).length

/-- `localStorage` modelled as a partial map from keys to stored JSON
values (a stored string is the `JSON.stringify` image of a value tree). -/
def Store := String → Option Json

/-- The storage key `audio_sales_data_v1` from src/services/storage.ts. -/
def STORAGE_KEY : String := "audio_sales_data_v1"

/-- `JSON.stringify` on one sale record: an object with the record's fields
in declaration order; an absent optional `note` is omitted, as
`JSON.stringify` omits `undefined` properties. -/
def encodeItem (s : SaleItem) : Json :=
  .obj ([("id", .str s.id), ("brand", .str s.brand), ("type", .str s.type),
         ("model", .str s.model), ("costPrice", .num s.costPrice),
         ("shippingCost", .num s.shippingCost),
         ("sellingPrice", .num s.sellingPrice), ("date", .str s.date)] ++
        (match s.note with
         | some n => [("note", .str n)]
         | none => []))

/-- `JSON.stringify` on the sales list: a JSON array of the encoded records
in order. -/
def encodeSales (sales : List SaleItem) : Json :=
  .arr (sales.map encodeItem)

/-- First value stored under a key in a JSON object. -/
def jsonLookup (fields : List (String × Json)) (k : String) : Option Json :=
  (fields.find? (fun p => p.1 == k)).map (fun p => p.2)

/-- Read back one sale record from its JSON object (`JSON.parse` followed by
use at type `SaleItem`); fails if a required field is absent or has the
wrong shape. -/
def decodeItem : Json → Option SaleItem
  | .obj fields =>
      match jsonLookup fields "id", jsonLookup fields "brand",
            jsonLookup fields "type", jsonLookup fields "model",
            jsonLookup fields "costPrice", jsonLookup fields "shippingCost",
            jsonLookup fields "sellingPrice", jsonLookup fields "date" with
      | some (.str id), some (.str brand), some (.str type), some (.str model),
        some (.num costPrice), some (.num shippingCost),
        some (.num sellingPrice), some (.str date) =>
          some { id, brand, type, model, costPrice, shippingCost, sellingPrice,
                 date,
                 note := match jsonLookup fields "note" with
                         | some (.str n) => some n
                         | _ => none }
      | _, _, _, _, _, _, _, _ => none
  | _ => none

/-- Read back each element of a JSON array as a sale record, failing if any
element is ill-shaped. -/
def decodeItems : List Json → Option (List SaleItem)
  | [] => some []
  | j :: rest =>
      match decodeItem j, decodeItems rest with
      | some item, some items => some (item :: items)
      | _, _ => none

/-- Read back a sales list from a stored JSON value; fails on anything that
is not an array of well-shaped records. -/
def decodeSales : Json → Option (List SaleItem)
  | .arr items => decodeItems items
  | _ => none

/-- `saveSales` (src/services/storage.ts): store the serialized list under
`STORAGE_KEY`, leaving every other key alone. -/
def saveSales (sales : List SaleItem) (st : Store) : Store :=
  fun k => if k = STORAGE_KEY then some (encodeSales sales) else st k

/-- `loadSales` (src/services/storage.ts): read `STORAGE_KEY`; an absent key
or a value that does not parse back to a record list yields `[]` (the
source returns `[]` both for a null read and from the `catch`). -/
def loadSales (st : Store) : List SaleItem :=
  match st STORAGE_KEY with
  | none => []
  | some j => (decodeSales j).getD []

/-- The form state `formData : Partial<SaleItem>` (src/App.tsx lines 37-45).
`brand` and `model` are optional so that the JS falsiness check
`!formData.brand` can distinguish absent from present; the other fields are
always set by the form's initial state. -/
structure FormData where
  brand : Option String
  type : String
  model : Option String
  costPrice : Int
  shippingCost : Int
  sellingPrice : Int
  date : String
  note : Option String := none
deriving DecidableEq

/-- JS falsiness of an optional string: `undefined` and `""` are falsy. -/
def isFalsy : Option String → Bool
  | none => true
  | some s => s.isEmpty

/-- The record built by the spread `{ ...formData, id }` in `handleSubmit`
(src/App.tsx lines 107 and 109-112): every field comes from the form, the
id is the supplied one. -/
def mergeForm (form : FormData) (id : String) : SaleItem :=
  { id
    brand := form.brand.getD ""
    type := form.type
    model := form.model.getD ""
    costPrice := form.costPrice
    shippingCost := form.shippingCost
    sellingPrice := form.sellingPrice
    date := form.date
    note := form.note }

/-- `handleSubmit` (src/App.tsx lines 102-118) acting on the sales list:
reject (return the list unchanged) when `brand` or `model` is falsy;
otherwise, when editing, replace each record whose id matches `editingId`
by the form values with that id, and when creating, prepend a new record
with a fresh id (`crypto.randomUUID()`, supplied here as `newId`). -/
def handleSubmit (form : FormData) (editingId : Option String) (newId : String)
    (sales : List SaleItem) : List SaleItem :=
  if isFalsy form.brand || isFalsy form.model then sales
  else
    match editingId with
    | some eid => sales.map (fun item =>
        if item.id = eid then mergeForm form eid else item)
    | none => mergeForm form newId :: sales

/-- `handleDelete` (src/App.tsx lines 120-124) acting on the sales list
(the confirmation prompt is an external collaborator; this is the mutation
it guards): keep the records whose id differs. -/
def handleDelete (id : String) (sales : List SaleItem) : List SaleItem :=
  sales.filter (fun item => item.id ≠ id)

/-- JS `Set` construction from a list: first-occurrence deduplication in
insertion order (`new Set(xs)` then `Array.from`). -/
def jsSetOfList (l : List String) : List String :=
  l.foldl (fun acc m => if m ∈ acc then acc else acc ++ [m]) []

/-- Decidability of `≤` on strings through their character lists; the JS
default sort compares strings the same way, and unlike the iterator-based
core instance this one evaluates inside the kernel. -/
def strLeDec : DecidableRel (fun a b : String => a ≤ b) :=
  fun _ _ => decidable_of_iff _ String.le_iff_toList_le.symm

/-- `availableMonths` (src/App.tsx lines 150-153): the distinct
`date.substring(0, 7)` month prefixes, sorted ascending by the default JS
string sort and then reversed, i.e. sorted descending. -/
def availableMonths (sales : List SaleItem) : List String :=
  (@List.insertionSort String (· ≤ ·) strLeDec
    (jsSetOfList (sales.map (fun s => s.date.take 7)))).reverse

/-- One create-or-update step for the invariant claims: the inputs of one
`handleSubmit` call. -/
structure Op where
  form : FormData
  editingId : Option String
  newId : String
deriving DecidableEq

/-- Apply a sequence of create/update operations to the sales list. -/
def applyOps (sales : List SaleItem) (ops : List Op) : List SaleItem :=
  ops.foldl (fun s o => handleSubmit o.form o.editingId o.newId s) sales

/-- All three monetary amounts of a record are non-negative. -/
def nonnegItem (r : SaleItem) : Prop :=
  0 ≤ r.costPrice ∧ 0 ≤ r.shippingCost ∧ 0 ≤ r.sellingPrice

/-- All three monetary amounts of a form are non-negative. -/
def nonnegForm (f : FormData) : Prop :=
  0 ≤ f.costPrice ∧ 0 ≤ f.shippingCost ∧ 0 ≤ f.sellingPrice

instance : DecidablePred nonnegItem := fun r => by
  unfold nonnegItem; infer_instance

instance : DecidablePred nonnegForm := fun f => by
  unfold nonnegForm; infer_instance

/-- Specification-side accessor for the counter map: the value stored at a
key, 0 when absent (`data[k]` read with `undefined` as 0). -/
def lookupCount : List (String × Nat) → String → Nat
  | [], _ => 0
  | (k₀, v) :: rest, k => if k₀ = k then v else lookupCount rest k

/-- The shape a JS object used as a counter keeps: unique keys, and never a
stored 0 (a 0 would be falsy and would be overwritten with 1, but the code
only ever stores 1 or an increment). -/
def goodMap (m : List (String × Nat)) : Prop :=
  (m.map Prod.fst).Nodup ∧ ∀ p ∈ m, p.2 ≠ 0

/-- Sample record used in witnesses (the scenario record of the spec). -/
def rec1 : SaleItem :=
  { id := "1", brand := "Sony", type := "Speaker", model := "X1",
    costPrice := 1000, shippingCost := 100, sellingPrice := 1500,
    date := "2024-01-15" }

/-- Second sample record used in witnesses. -/
def rec2 : SaleItem :=
  { id := "2", brand := "Bose", type := "Speaker", model := "B2",
    costPrice := 200, shippingCost := 10, sellingPrice := 300,
    date := "2024-02-01" }

/-- Third sample record used in witnesses. -/
def rec3 : SaleItem :=
  { id := "3", brand := "JBL", type := "Amp", model := "A7",
    costPrice := 50, shippingCost := 5, sellingPrice := 40,
    date := "2024-02-20" }

/-- A form with an empty brand, used in witnesses. -/
def emptyBrandForm : FormData :=
  { brand := some "", type := "Speaker", model := some "X",
    costPrice := 5, shippingCost := 1, sellingPrice := 9,
    date := "2024-03-01" }

/-- A valid form (non-empty brand and model), used in witnesses. -/
def okForm : FormData :=
  { brand := some "Sony", type := "Speaker", model := some "X2",
    costPrice := 700, shippingCost := 30, sellingPrice := 900,
    date := "2024-03-05" }

/-- A form carrying a negative cost, used for the non-negativity analysis. -/
def negCostForm : FormData :=
  { brand := some "Sony", type := "Speaker", model := some "X3",
    costPrice := -1, shippingCost := 0, sellingPrice := 0,
    date := "2024-03-06" }

/-! ### Summary statistics (C1) -/

/-- Closed form of the `stats` fold from an arbitrary accumulator. -/
theorem stats_foldl (R : List SaleItem) (acc : SummaryStats) :
    R.foldl statsStep acc =
      { totalCost := acc.totalCost +
          (R.map (fun r => r.costPrice + r.shippingCost)).sum
        totalRevenue := acc.totalRevenue + (R.map (fun r => r.sellingPrice)).sum
        totalProfit := acc.totalProfit +
          (R.map (fun r => r.sellingPrice - (r.costPrice + r.shippingCost))).sum
        count := acc.count + R.length } := by
  induction R generalizing acc with
  | nil => simp
  | cons a l ih =>
      simp only [List.foldl_cons, ih, List.map_cons, List.sum_cons,
        List.length_cons, statsStep, SummaryStats.mk.injEq]
      refine ⟨by ring, by ring, by ring, by omega⟩

/-- Per-record profits sum to total revenue minus total cost. -/
theorem sum_profit_eq (R : List SaleItem) :
    (R.map (fun r => r.sellingPrice - (r.costPrice + r.shippingCost))).sum =
      (R.map (fun r => r.sellingPrice)).sum -
        (R.map (fun r => r.costPrice + r.shippingCost)).sum := by
  induction R with
  | nil => simp
  | cons a l ih => simp only [List.map_cons, List.sum_cons, ih]; ring

/-- C1: `summarize` returns `totalCost = Σ (costPrice + shippingCost)`,
`totalRevenue = Σ sellingPrice`, `totalProfit = totalRevenue − totalCost`,
`count = length R`, and the all-zero stats on the empty list. -/
theorem stats_summarize_spec (R : List SaleItem) :
    (stats R).totalCost = (R.map (fun r => r.costPrice + r.shippingCost)).sum ∧
    (stats R).totalRevenue = (R.map (fun r => r.sellingPrice)).sum ∧
    (stats R).totalProfit = (stats R).totalRevenue - (stats R).totalCost ∧
    (stats R).count = R.length ∧
    stats [] = { totalCost := 0, totalRevenue := 0, totalProfit := 0, count := 0 } := by
  unfold stats
  rw [stats_foldl]
  simp [sum_profit_eq]

/-! ### Month filtering (C2, C10) -/

/-- C2: with the sentinel `"all"` the filter returns the list itself;
otherwise it returns, in their original order (a sublist), exactly the
records whose date starts with the month: every returned record matches,
and every record either appears in the result or fails the prefix test. -/
theorem filteredSales_spec (R : List SaleItem) (m : String) :
    (m = "all" → filteredSales R m = R) ∧
    (m ≠ "all" →
      (filteredSales R m).Sublist R ∧
      (∀ r ∈ filteredSales R m, jsStartsWith r.date m = true) ∧
      (∀ r ∈ R, r ∈ filteredSales R m ∨ jsStartsWith r.date m = false)) := by
  constructor
  · intro h
    simp [filteredSales, h]
  · intro h
    refine ⟨?_, ?_, ?_⟩
    · unfold filteredSales
      rw [if_neg h]
      exact List.filter_sublist R
    · intro r hr
      unfold filteredSales at hr
      rw [if_neg h, List.mem_filter] at hr
      exact hr.2
    · intro r hr
      by_cases hp : jsStartsWith r.date m = true
      · exact Or.inl (by simp [filteredSales, h, List.mem_filter, hr, hp])
      · exact Or.inr (by simpa using hp)

/-- Witness for C2 at concrete inputs: identity under `"all"`, and the
partition disjunct for a record of a two-record list under month
`"2024-01"`. -/
theorem filteredSales_spec_witness :
    filteredSales [rec1, rec2] "all" = [rec1, rec2] ∧
    (rec1 ∈ filteredSales [rec1, rec2] "2024-01" ∨
      jsStartsWith rec1.date "2024-01" = false) :=
  ⟨(filteredSales_spec [rec1, rec2] "all").1 rfl,
   ((filteredSales_spec [rec1, rec2] "2024-01").2 (by decide)).2.2 rec1
     (by simp)⟩

/-- C10: the empty month string is not the sentinel, but every date string
has the empty prefix, so filtering by `""` also returns the whole list. -/
theorem filteredSales_empty_month (R : List SaleItem) :
    filteredSales R "" = R := by
  have h : ("" : String) ≠ "all" := by decide
  simp only [filteredSales, if_neg h]
  exact List.filter_eq_self.mpr (fun a _ => by simp [jsStartsWith, String.data])

/-! ### Category breakdown (C3) -/

/-- `bump` increments the count stored at its key and leaves every other
key's count alone. -/
theorem lookupCount_bump (m : List (String × Nat)) (k t : String) :
    lookupCount (bump m k) t =
      lookupCount m t + (if k = t then 1 else 0) := by
  induction m with
  | nil =>
      by_cases h : k = t <;> simp [bump, lookupCount, h]
  | cons p rest ih =>
      obtain ⟨k₀, v⟩ := p
      by_cases h₀ : k₀ = k
      · subst h₀
        by_cases h : k₀ = t <;> simp [bump, lookupCount, h]
      · by_cases h : k₀ = t
        · subst h
          have hne : k ≠ k₀ := fun hk => h₀ hk.symm
          simp [bump, lookupCount, h₀, hne]
        · simp [bump, lookupCount, h₀, h, ih]

/-- `bump` keeps the key list unchanged when the key is present and appends
the key when absent. -/
theorem keys_bump (m : List (String × Nat)) (k : String) :
    (bump m k).map Prod.fst =
      if k ∈ m.map Prod.fst then m.map Prod.fst
      else m.map Prod.fst ++ [k] := by
  induction m with
  | nil => simp [bump]
  | cons p rest ih =>
      obtain ⟨k₀, v⟩ := p
      by_cases h₀ : k₀ = k
      · simp [bump, h₀]
      · have hne : k ≠ k₀ := fun h => h₀ h.symm
        by_cases hk : k ∈ rest.map Prod.fst
        · simp [bump, h₀, ih, hk, hne]
        · simp [bump, h₀, ih, hk, hne]

/-- `bump` preserves the counter-map shape. -/
theorem goodMap_bump (m : List (String × Nat)) (k : String)
    (hm : goodMap m) : goodMap (bump m k) := by
  obtain ⟨hnd, hv⟩ := hm
  constructor
  · rw [keys_bump]
    by_cases hk : k ∈ m.map Prod.fst
    · simpa [hk] using hnd
    · simp only [hk, if_false]
      exact List.Nodup.append hnd (List.nodup_singleton k)
        (by simpa using hk)
  · induction m with
    | nil => simp [bump]
    | cons p rest ih =>
        obtain ⟨k₀, v⟩ := p
        by_cases h₀ : k₀ = k
        · subst h₀
          simp only [bump, if_pos rfl]
          intro q hq
          rcases List.mem_cons.mp hq with h | h
          · simp [h]
          · exact hv q (List.mem_cons_of_mem _ h)
        · simp only [bump, if_neg h₀]
          intro q hq
          rcases List.mem_cons.mp hq with h | h
          · exact hv q (h ▸ List.mem_cons_self _ _)
          · exact ih (List.Nodup.of_cons hnd)
              (fun q hq => hv q (List.mem_cons_of_mem _ hq)) q h

/-- In a well-shaped counter map, membership of a pair is exactly "the
stored count at that key is this non-zero value". -/
theorem mem_goodMap_iff : ∀ (m : List (String × Nat)), goodMap m →
    ∀ (t : String) (c : Nat), ((t, c) ∈ m ↔ (lookupCount m t = c ∧ c ≠ 0))
  | [], _, t, c => by
      simp only [List.not_mem_nil, lookupCount, false_iff, not_and, Ne]
      omega
  | (k₀, v) :: rest, hm, t, c => by
      have hv₀ : v ≠ 0 := hm.2 (k₀, v) (List.mem_cons_self _ _)
      have hcons := hm.1
      rw [List.map_cons, List.nodup_cons] at hcons
      have hv2 : ∀ p ∈ rest, p.2 ≠ 0 :=
        fun p hp => hm.2 p (List.mem_cons_of_mem _ hp)
      have ih := mem_goodMap_iff rest ⟨hcons.2, hv2⟩ t c
      by_cases h : k₀ = t
      · subst h
        rw [List.mem_cons]
        show _ ↔ ((if k₀ = k₀ then v else lookupCount rest k₀) = c ∧ c ≠ 0)
        rw [if_pos rfl]
        constructor
        · rintro (heq | hmem)
          · injection heq with h1 h2
            subst h2
            exact ⟨rfl, hv₀⟩
          · exact absurd (List.mem_map_of_mem Prod.fst hmem) hcons.1
        · rintro ⟨hc, -⟩
          left
          rw [← hc]
      · rw [List.mem_cons]
        have hl : lookupCount ((k₀, v) :: rest) t = lookupCount rest t := by
          simp only [lookupCount, if_neg h]
        rw [hl, ← ih]
        constructor
        · rintro (heq | hmem)
          · injection heq with h1 h2
            exact absurd h1.symm h
          · exact hmem
        · exact Or.inr

/-- `countType` over a cons. -/
theorem countType_cons (a : SaleItem) (l : List SaleItem) (t : String) :
    countType (a :: l) t =
      (if a.type = t then 1 else 0) + countType l t := by
  by_cases h : a.type = t <;> simp [countType, h, Nat.add_comm]

/-- The `categoryData` fold adds each record's type count on top of the
counts already in the accumulator. -/
theorem lookupCount_categoryData_aux (R : List SaleItem)
    (m : List (String × Nat)) (t : String) :
    lookupCount (R.foldl (fun data sale => bump data sale.type) m) t =
      lookupCount m t + countType R t := by
  induction R generalizing m with
  | nil => simp [countType]
  | cons a l ih =>
      simp only [List.foldl_cons, ih, lookupCount_bump, countType_cons]
      omega

/-- The `categoryData` fold preserves the counter-map shape. -/
theorem goodMap_categoryData_aux (R : List SaleItem)
    (m : List (String × Nat)) (hm : goodMap m) :
    goodMap (R.foldl (fun data sale => bump data sale.type) m) := by
  induction R generalizing m with
  | nil => exact hm
  | cons a l ih => exact ih _ (goodMap_bump _ _ hm)

/-- The count of records of type `t` is non-zero exactly when some record
has type `t`. -/
theorem countType_ne_zero (R : List SaleItem) (t : String) :
    countType R t ≠ 0 ↔ ∃ r ∈ R, r.type = t := by
  rw [countType, ← Nat.pos_iff_ne_zero, List.length_pos_iff_exists_mem]
  constructor
  · rintro ⟨r, hr⟩
    rw [List.mem_filter] at hr
    exact ⟨r, hr.1, by simpa using hr.2⟩
  · rintro ⟨r, hr, ht⟩
    exact ⟨r, List.mem_filter.mpr ⟨hr, by simpa using ht⟩⟩

/-- C3: `categoryBreakdown` maps each type to the exact number of records
of that type: a type occurs in the result exactly when some record has it,
and any count paired with a type equals the number of records of that
type. -/
theorem categoryData_spec (R : List SaleItem) (t : String) :
    ((∃ c, (t, c) ∈ categoryData R) ↔ ∃ r ∈ R, r.type = t) ∧
    (∀ c, (t, c) ∈ categoryData R → c = countType R t) := by
  have hgood : goodMap (categoryData R) :=
    goodMap_categoryData_aux R [] ⟨List.nodup_nil, by simp⟩
  have hlook : lookupCount (categoryData R) t = countType R t := by
    simpa [lookupCount] using lookupCount_categoryData_aux R [] t
  constructor
  · constructor
    · rintro ⟨c, hc⟩
      have h := (mem_goodMap_iff _ hgood t c).mp hc
      exact (countType_ne_zero R t).mp (by rw [← hlook, h.1]; exact h.2)
    · intro hr
      refine ⟨countType R t, (mem_goodMap_iff _ hgood t _).mpr ⟨hlook, ?_⟩⟩
      exact (countType_ne_zero R t).mpr hr
  · intro c hc
    have h := (mem_goodMap_iff _ hgood t c).mp hc
    rw [← h.1, hlook]

/-- Witness for C3: two records of type `"Speaker"` give the pair
`("Speaker", 2)`, and the theorem turns that membership into the count 2. -/
theorem categoryData_spec_witness :
    ("Speaker", 2) ∈ categoryData [rec1, rec2] ∧
    2 = countType [rec1, rec2] "Speaker" :=
  ⟨by decide,
   (categoryData_spec [rec1, rec2] "Speaker").2 2 (by decide)⟩

/-! ### Storage round trip (C4) -/

/-- One record decodes back from its encoding. -/
theorem decodeItem_encodeItem (s : SaleItem) :
    decodeItem (encodeItem s) = some s := by
  obtain ⟨id, brand, type, model, costPrice, shippingCost, sellingPrice,
    date, note⟩ := s
  cases note <;> rfl

/-- A list of records decodes back from its element-wise encoding. -/
theorem decodeItems_map_encodeItem (R : List SaleItem) :
    decodeItems (R.map encodeItem) = some R := by
  induction R with
  | nil => rfl
  | cons a l ih => simp [decodeItems, decodeItem_encodeItem, ih]

/-- C4: saving a record list and loading it back returns the same list, in
the same order, from any starting store state. -/
theorem loadSales_saveSales (R : List SaleItem) (st : Store) :
    loadSales (saveSales R st) = R := by
  simp [loadSales, saveSales, encodeSales, decodeSales,
    decodeItems_map_encodeItem]

/-! ### Create validation (C5) -/

/-- C5: a create or update whose form has a falsy (absent or empty) brand
or model leaves the sales list exactly unchanged. -/
theorem handleSubmit_reject_spec (form : FormData) (editingId : Option String)
    (newId : String) (sales : List SaleItem)
    (h : isFalsy form.brand = true ∨ isFalsy form.model = true) :
    handleSubmit form editingId newId sales = sales := by
  unfold handleSubmit
  rcases h with h | h <;> simp [h]

/-- Witness for C5: a form with brand `""` and model `"X"` leaves a
one-record list unchanged. -/
theorem handleSubmit_reject_spec_witness :
    isFalsy emptyBrandForm.brand = true ∧
    handleSubmit emptyBrandForm none "u1" [rec1] = [rec1] :=
  ⟨rfl, handleSubmit_reject_spec emptyBrandForm none "u1" [rec1] (Or.inl rfl)⟩

/-! ### Update semantics (C6) -/

/-- C6: a valid update replaces exactly the records whose id matches
`editingId` by the form values carrying that id, keeps their positions and
the list length, leaves every other record unchanged, and is a no-op when
no record has the id. -/
theorem handleSubmit_update_spec (form : FormData) (eid newId : String)
    (sales : List SaleItem)
    (hb : isFalsy form.brand = false) (hm : isFalsy form.model = false) :
    (handleSubmit form (some eid) newId sales).length = sales.length ∧
    (∀ i (hi : i < sales.length),
      (handleSubmit form (some eid) newId sales)[i]? =
        some (if (sales.get ⟨i, hi⟩).id = eid then mergeForm form eid
              else sales.get ⟨i, hi⟩)) ∧
    (mergeForm form eid).id = eid ∧
    ((∀ r ∈ sales, r.id ≠ eid) →
      handleSubmit form (some eid) newId sales = sales) := by
  have hdef : handleSubmit form (some eid) newId sales =
      sales.map (fun item => if item.id = eid then mergeForm form eid else item) := by
    unfold handleSubmit
    simp [hb, hm]
  refine ⟨by rw [hdef]; exact List.length_map .., ?_, rfl, ?_⟩
  · intro i hi
    rw [hdef, List.getElem?_map, List.getElem?_eq_getElem hi]
    rfl
  · intro hnone
    rw [hdef]
    have hcongr : sales.map
        (fun item => if item.id = eid then mergeForm form eid else item) =
        sales.map id :=
      List.map_congr_left (fun a ha => by rw [if_neg (hnone a ha)]; rfl)
    rw [hcongr, List.map_id]

/-- Witness for C6: updating id `"1"` in a two-record list puts the form
values (with id `"1"`) at position 0 and keeps `rec2` at position 1. -/
theorem handleSubmit_update_spec_witness :
    (handleSubmit okForm (some "1") "u9" [rec1, rec2])[0]? =
      some (mergeForm okForm "1") ∧
    (handleSubmit okForm (some "1") "u9" [rec1, rec2])[1]? = some rec2 := by
  have h := handleSubmit_update_spec okForm "1" "u9" [rec1, rec2] rfl rfl
  have h0 := h.2.1 0 (by decide)
  have h1 := h.2.1 1 (by decide)
  constructor
  · rw [h0]
    rfl
  · rw [h1]
    rfl

/-! ### Delete semantics (C7) -/

/-- C7: deleting an id keeps, in their original relative order, exactly the
records whose id differs: no surviving record has the id, every other
record of the list survives, and the list is unchanged when no record has
the id. -/
theorem handleDelete_spec (id : String) (sales : List SaleItem) :
    (∀ r ∈ handleDelete id sales, r.id ≠ id) ∧
    (handleDelete id sales).Sublist sales ∧
    (∀ r ∈ sales, r.id ≠ id → r ∈ handleDelete id sales) ∧
    ((∀ r ∈ sales, r.id ≠ id) → handleDelete id sales = sales) := by
  refine ⟨?_, List.filter_sublist sales, ?_, ?_⟩
  · intro r hr
    have := (List.mem_filter.mp hr).2
    simpa using this
  · intro r hr hne
    exact List.mem_filter.mpr ⟨hr, by simpa using hne⟩
  · intro hall
    exact List.filter_eq_self.mpr (fun a ha => by simpa using hall a ha)

/-- Witness for C7: deleting id `"1"` from `[rec1, rec2]` keeps `rec2`, and
deleting an absent id leaves the list unchanged. -/
theorem handleDelete_spec_witness :
    rec2 ∈ handleDelete "1" [rec1, rec2] ∧
    handleDelete "9" [rec1, rec2] = [rec1, rec2] :=
  ⟨(handleDelete_spec "1" [rec1, rec2]).2.2.1 rec2 (by simp) (by decide),
   (handleDelete_spec "9" [rec1, rec2]).2.2.2 (by decide)⟩

/-! ### Distinct months (C8) -/

/-- Membership in the JS-`Set` fold: an element is collected exactly when
it is in the accumulator or in the traversed list. -/
theorem mem_jsSetOfList_aux (l : List String) (acc : List String) :
    ∀ a, a ∈ l.foldl (fun acc m => if m ∈ acc then acc else acc ++ [m]) acc ↔
      a ∈ acc ∨ a ∈ l := by
  induction l generalizing acc with
  | nil => simp
  | cons b l ih =>
      intro a
      rw [List.foldl_cons, ih]
      by_cases hb : b ∈ acc
      · rw [if_pos hb]
        constructor
        · rintro (h | h)
          · exact Or.inl h
          · exact Or.inr (List.mem_cons_of_mem _ h)
        · rintro (h | h)
          · exact Or.inl h
          · rcases List.mem_cons.mp h with h | h
            · exact Or.inl (h ▸ hb)
            · exact Or.inr h
      · rw [if_neg hb]
        simp only [List.mem_append, List.mem_singleton, List.mem_cons]
        tauto

/-- The JS-`Set` fold keeps the accumulator duplicate-free. -/
theorem nodup_jsSetOfList_aux (l : List String) (acc : List String)
    (hacc : acc.Nodup) :
    (l.foldl (fun acc m => if m ∈ acc then acc else acc ++ [m]) acc).Nodup := by
  induction l generalizing acc with
  | nil => exact hacc
  | cons b l ih =>
      rw [List.foldl_cons]
      by_cases hb : b ∈ acc
      · rw [if_pos hb]
        exact ih acc hacc
      · rw [if_neg hb]
        exact ih _ (List.Nodup.append hacc (List.nodup_singleton b)
          (by simpa using hb))

/-- C8: `distinctMonths` lists each 7-character month prefix occurring in
the records exactly once, sorted descending, and the three-record scenario
of the spec yields `["2024-02", "2024-01"]`. -/
theorem availableMonths_spec (R : List SaleItem) :
    (availableMonths R).Nodup ∧
    List.Sorted (· ≥ ·) (availableMonths R) ∧
    (∀ m, m ∈ availableMonths R ↔ ∃ r ∈ R, r.date.take 7 = m) ∧
    availableMonths
      [{ rec1 with date := "2024-02-01" }, { rec2 with date := "2024-01-10" },
       { rec3 with date := "2024-02-20" }] = ["2024-02", "2024-01"] := by
  have hset := nodup_jsSetOfList_aux (R.map (fun s => s.date.take 7)) []
    List.nodup_nil
  have hperm := @List.perm_insertionSort String (· ≤ ·) strLeDec
    (jsSetOfList (R.map (fun s => s.date.take 7)))
  refine ⟨?_, ?_, ?_, by decide⟩
  · rw [availableMonths, List.nodup_reverse]
    exact hperm.nodup_iff.mpr hset
  · rw [availableMonths, List.Sorted, List.pairwise_reverse]
    exact @List.sorted_insertionSort String (· ≤ ·) strLeDec _ _
      (jsSetOfList (R.map (fun s => s.date.take 7)))
  · intro m
    rw [availableMonths, List.mem_reverse, hperm.mem_iff, jsSetOfList,
      mem_jsSetOfList_aux]
    simp only [List.not_mem_nil, false_or, List.mem_map]

/-! ### Non-negativity (C9) -/

/-- C9 counterexample: `handleSubmit` never validates amounts, so from the
(vacuously non-negative) empty collection a single create whose form
carries `costPrice = -1` produces a collection with a negative amount; the
claimed invariant fails as stated. -/
theorem nonneg_invariant_counterexample :
    (∀ r ∈ ([] : List SaleItem), nonnegItem r) ∧
    ¬ (∀ r ∈ applyOps []
        [{ form := negCostForm, editingId := none, newId := "n1" }],
        nonnegItem r) := by
  decide

/-- One `handleSubmit` step keeps all amounts non-negative provided the
form's own amounts are non-negative. -/
theorem handleSubmit_nonneg (form : FormData) (editingId : Option String)
    (newId : String) (sales : List SaleItem)
    (hf : nonnegForm form) (hs : ∀ r ∈ sales, nonnegItem r) :
    ∀ r ∈ handleSubmit form editingId newId sales, nonnegItem r := by
  have hmerge : ∀ i, nonnegItem (mergeForm form i) :=
    fun i => ⟨hf.1, hf.2.1, hf.2.2⟩
  unfold handleSubmit
  by_cases hrej : (isFalsy form.brand || isFalsy form.model) = true
  · rw [if_pos hrej]
    exact hs
  · rw [if_neg hrej]
    cases editingId with
    | none =>
        intro r hr
        rcases List.mem_cons.mp hr with h | h
        · exact h ▸ hmerge newId
        · exact hs r h
    | some eid =>
        intro r hr
        rcases List.mem_map.mp hr with ⟨a, ha, rfl⟩
        by_cases hid : a.id = eid
        · rw [if_pos hid]
          exact hmerge eid
        · rw [if_neg hid]
          exact hs a ha

/-- C9 amended: starting from a collection whose amounts are all
non-negative, any sequence of create/update operations whose supplied forms
have non-negative amounts leaves every amount in the collection
non-negative (the code itself never rejects a negative amount, so the
restriction to non-negative inputs is necessary). -/
theorem nonneg_invariant_amended (ops : List Op) (sales : List SaleItem)
    (hops : ∀ op ∈ ops, nonnegForm op.form)
    (hsales : ∀ r ∈ sales, nonnegItem r) :
    ∀ r ∈ applyOps sales ops, nonnegItem r := by
  induction ops generalizing sales with
  | nil => exact hsales
  | cons o rest ih =>
      exact ih _ (fun op hop => hops op (List.mem_cons_of_mem _ hop))
        (handleSubmit_nonneg o.form o.editingId o.newId sales
          (hops o (List.mem_cons_self _ _)) hsales)

/-- Witness for the amended C9: a non-negative create on a non-negative
one-record list yields a non-negative new record. -/
theorem nonneg_invariant_amended_witness :
    nonnegItem (mergeForm okForm "n1") := by
  have h := nonneg_invariant_amended
    [{ form := okForm, editingId := none, newId := "n1" }] [rec1]
    (by decide) (by decide)
  exact h (mergeForm okForm "n1") (by decide)

end KwangHifi
